import Mathlib

set_option maxRecDepth 16384

/-!
Shallow embedding of the script-tree panel's core logic:
the filter computation (`ScriptTreeWindow.filter_results`), the settings-driven
double-click dispatch, the logger configuration, and the backup policy
(`backup_script`, `backup_tree`, `copy_directory` from `script_tree_utils.py`).

Paths are modelled as lists of components (`os.path.join a b` appends one
component); the filesystem is an association list from file paths to file
contents (first match wins, so prepending an entry models an overwrite).
Directories are implicit: a directory exists when some file lies strictly
below it.  Timestamps (`str(int(time.time()))`) are naturals rendered in
decimal.  The fallible copy primitives (`shutil.copy2`, `shutil.copytree`)
are parameters where error flow matters, and logging is modelled as the list
of emitted events, each tagged with the logger that received it.
-/

namespace ScriptTree

/-! ### TreeFilterIndex: `ScriptTreeWindow.filter_results` (script_tree_ui.py 178-197) -/

/-- Default name filters of the browser (`ScriptTreeWidget.default_filter`, line 416). -/
def default_filter : List String := ["*.py", "*.mel"]

/-- Model of line 185, the regex substitution that deletes every character whose
code point lies outside the range 0x00-0x7F. -/
def stripNonAscii (l : List Char) : List Char := l.filter (fun c => c.toNat ≤ 0x7F)

/-- Model of Python's `text.split(",")`: split at every comma, keeping empty pieces. -/
def splitOnComma : List Char → List (List Char)
  | [] => [[]]
  | c :: rest =>
    if c = ',' then [] :: splitOnComma rest
    else
      match splitOnComma rest with
      | [] => [[c]]
      | piece :: pieces => (c :: piece) :: pieces

/-- Model of `filter_string.replace(" ", "")`: delete every space character. -/
def removeSpaces (l : List Char) : List Char := l.filter (fun c => c ≠ ' ')

/-- The two patterns emitted for one comma-separated term (lines 193-195). -/
def term_patterns (piece : List Char) : List String :=
  let t := String.mk (removeSpaces piece)
  ["*" ++ t ++ "*.py", "*" ++ t ++ "*.mel"]

/-- `ScriptTreeWindow.filter_results`: the patterns passed to `setNameFilters`
together with the expansion state (`true` = `expandAll`, `false` = `collapseAll`). -/
def filter_results (query : String) : List String × Bool :=
  if stripNonAscii query.toList = [] then (default_filter, false)
  else ((splitOnComma (stripNonAscii query.toList)).flatMap term_patterns, true)

/-! ### SettingsStore and double-click dispatch
(`script_tree_ui.py` 45-62, 380-397; `ui_utils.py` 266-298, 316-329) -/

def run_script_on_click : String := "Run Script on Double-Click"

def edit_script_on_click : String := "Edit Script on Double-Click"

def k_double_click_action : String := "script_tree/double_click_action"

/-- A `QSettings` store: persisted keys mapped to stored values. -/
abbrev Settings := String → Option String

/-- `settings.value(key, defaultValue=d)`. -/
def settings_value (st : Settings) (key : String) (defaultValue : String) : String :=
  (st key).getD defaultValue

/-- `settings.setValue(key, value)`. -/
def setValue (st : Settings) (key value : String) : Settings :=
  fun k => if k = key then some value else st k

/-- The slot a double click is dispatched to. -/
inductive DoubleClickTarget
  | openScript
  | runScript
deriving DecidableEq

/-- `ScriptTreeWindow.action_setup_double_click_connections` (lines 380-397):
the handler connected to `doubleClicked`, decided by the persisted preference
with default `edit_script_on_click`. -/
def action_setup_double_click_connections (st : Settings) : DoubleClickTarget :=
  if settings_value st k_double_click_action edit_script_on_click = edit_script_on_click
  then .openScript else .runScript

/-- `ui_utils.set_settings_value` (lines 316-329) as wired by the radio menu:
store the chosen value, then run the post-set command, which here is
`action_setup_double_click_connections`; the pair is the new store and the
dispatch target now connected. -/
def set_settings_value (st : Settings) (key value : String) :
    Settings × DoubleClickTarget :=
  let st2 := setValue st key value
  (st2, action_setup_double_click_connections st2)

/-- The choice the radio group marks as checked (`ui_utils.py` 275-288):
the stored value, or the `default` argument when the key is unset or falsy. -/
def radio_item_to_check (stored : Option String) (default_choice : String) : String :=
  match stored with
  | none => default_choice
  | some v => if v = "" then default_choice else v

/-- The checked entries of the radio group built from an action list. -/
def radio_checked_choices (st : Settings) (key : String) (choices : List String)
    (default_choice : String) : List String :=
  choices.filter (fun c => c = radio_item_to_check (st key) default_choice)

/-- The choices of the double-click radio group (`script_tree_ui.py` line 51). -/
def double_click_menu_choices : List String := [run_script_on_click, edit_script_on_click]

/-- The `default` entry of the radio config (`script_tree_ui.py` line 52). -/
def double_click_menu_default : String := run_script_on_click

/-! ### Logger (`logger.py`) -/

/-- Which logger a message was sent to: the named 'Script-Tree' logger created by
`set_logger`, or the root logger reached through module-level `logging.error` /
`logging.info` calls. -/
inductive LoggerId
  | scriptTree
  | root
deriving DecidableEq

inductive LogLevel
  | debug
  | info
  | warning
  | error
deriving DecidableEq

/-- One emitted log record. -/
structure LogEvent where
  logger : LoggerId
  level : LogLevel
  msg : String
deriving DecidableEq

/-- The configuration relevant to propagation, as set up in `logger.py`. -/
structure LoggerConfig where
  name : String
  propagate : Bool
deriving DecidableEq

/-- `logger.set_logger` (lines 7-24): names the logger 'Script-Tree' and sets
`logger.propagate = 0`. -/
def set_logger : LoggerConfig := { name := "Script-Tree", propagate := false }

/-! ### Filesystem model and path constants (`script_tree_utils.py` 25-46) -/

/-- A filesystem path, one component per directory level. -/
abbrev Path := List String

/-- The filesystem: an association list from file paths to file contents.
Lookup takes the first match, so prepending an entry models creating or
overwriting a file. -/
abbrev FS := List (Path × String)

/-- Content of the file at `p`, if present. -/
def lookupFS : FS → Path → Option String
  | [], _ => none
  | (k, v) :: rest, p => if k = p then some v else lookupFS rest p

def dcc_name : String := "Maya"

/-- `os.path.expanduser` result, abstracted to a fixed root. -/
def user_documents_folder : Path := ["Documents"]

def script_tree_folder : Path := user_documents_folder ++ ["ScriptTree", dcc_name]

def script_backup_folder : Path := script_tree_folder ++ ["ScriptTree_ScriptBackup"]

def tree_backup_folder : Path := script_tree_folder ++ ["ScriptTree_TreeBackup"]

/-! ### Decimal rendering of timestamps, `str(int(time.time()))` -/

def digitChar (d : Nat) : Char := Char.ofNat (48 + d)

/-- Decimal digits of `n`, most significant first; structural recursion on fuel
so that the kernel can evaluate it.  `natReprCore` supplies enough fuel. -/
def natReprAux : Nat → Nat → List Char
  | 0, _ => []
  | fuel + 1, n =>
    if n < 10 then [digitChar n]
    else natReprAux fuel (n / 10) ++ [digitChar (n % 10)]

def natReprCore (n : Nat) : List Char := natReprAux (n + 1) n

/-- The decimal string for a (timestamp) natural. -/
def natRepr (n : Nat) : String := String.mk (natReprCore n)

/-! ### Python `os.path.splitext` / `os.path.basename` on a basename string -/

/-- `os.path.splitext` on a string without separators: split at the last dot,
except that a basename consisting of leading dots only has no extension. -/
def splitext (b : String) : String × String :=
  let rev := b.toList.reverse
  let afterDotRev := rev.takeWhile (fun c => c ≠ '.')
  match rev.dropWhile (fun c => c ≠ '.') with
  | [] => (b, "")
  | _ :: beforeDotRev =>
    if beforeDotRev.any (fun c => c ≠ '.') then
      (String.mk beforeDotRev.reverse, String.mk ('.' :: afterDotRev.reverse))
    else (b, "")

/-- `os.path.basename` of a component path: its last component. -/
def basename (p : Path) : String := p.getLastD ""

/-! ### BackupPolicy (`script_tree_utils.py` 90-173) -/

/-- `get_backup_folder_for_script` (lines 90-101): `<script_backup_folder>/<stem>`. -/
def get_backup_folder_for_script (script_path : Path) : Path :=
  script_backup_folder ++ [(splitext (basename script_path)).1]

/-- The backup file name `<stem>_BACKUP_<timestamp><ext>` (lines 117-120). -/
def backup_file_name (script_path : Path) (t : Nat) : String :=
  (splitext (basename script_path)).1 ++ "_BACKUP_" ++ natRepr t ++
    (splitext (basename script_path)).2

/-- The full backup destination (line 122). -/
def backup_file_path (script_path : Path) (t : Nat) : Path :=
  get_backup_folder_for_script script_path ++ [backup_file_name script_path t]

/-- `backup_script` (lines 104-130), parameterised by the fallible copy
primitive standing for the `try` block's filesystem work (`os.makedirs` +
`shutil.copy2`).  A missing source is a silent no-op; a failure is caught and
logged through the module-level root logger (`logging.error(e)`, line 130). -/
def backup_script (copy2 : FS → Path → Path → Except String FS)
    (fs : FS) (script_path : Path) (t : Nat) : FS × List LogEvent :=
  match lookupFS fs script_path with
  | none => (fs, [])
  | some _ =>
    match copy2 fs script_path (backup_file_path script_path t) with
    | .ok fs2 => (fs2, [])
    | .error e => (fs, [{ logger := LoggerId.root, level := LogLevel.error, msg := e }])

/-- The immediate child of `p` that the key `k` lies under, if any. -/
def childName (p : Path) (k : Path) : Option String :=
  if p <+: k then (k.drop p.length).head? else none

/-- `os.listdir`: the distinct immediate children of `p` holding files. -/
def listdir (fs : FS) (p : Path) : List String :=
  ((fs.map (fun kv => kv.1)).filterMap (childName p)).dedup

/-- `os.path.isdir`: some file lies strictly below `p`. -/
def isdir (fs : FS) (p : Path) : Prop :=
  ∃ kv ∈ fs, p <+: kv.1 ∧ p.length < kv.1.length

instance (fs : FS) (p : Path) : Decidable (isdir fs p) := by
  unfold isdir; infer_instance

/-- The library primitive `shutil.copy2` on the model: duplicate one file. -/
def copy2R (fs : FS) (s d : Path) : Except String FS :=
  match lookupFS fs s with
  | some v => .ok ((d, v) :: fs)
  | none => .error "copy2: source does not exist"

/-- The entries a recursive subtree copy from `s` to `d` creates: every file at
`s ++ rel` reappears at `d ++ rel`. -/
def subtreeEntries (s d : Path) : FS → FS
  | [] => []
  | (k, v) :: rest =>
    if s <+: k then (d ++ k.drop s.length, v) :: subtreeEntries s d rest
    else subtreeEntries s d rest

/-- The library primitive `shutil.copytree` on the model: copy every file below
`s` to the same relative position below `d`. -/
def copytreeR (fs : FS) (s d : Path) : Except String FS :=
  .ok (subtreeEntries s d fs ++ fs)

/-- The two copy primitives `copy_directory` dispatches to. -/
structure CopyPrims where
  copy2 : FS → Path → Path → Except String FS
  copytree : FS → Path → Path → Except String FS

/-- The real (non-failing) primitives. -/
def realPrims : CopyPrims := ⟨copy2R, copytreeR⟩

/-- One iteration of the `copy_directory` loop (lines 166-173). -/
def copy_dir_step (P : CopyPrims) (src dst : Path) (acc : FS) (item : String) :
    Except String FS :=
  let s := src ++ [item]
  let d := dst ++ [item]
  if isdir acc s then P.copytree acc s d else P.copy2 acc s d

/-- `copy_directory` (lines 151-173): create `dst` (implicit in the file model)
and copy each child of `src`, recursing through `copytree` for directories.
The first failing primitive aborts the loop and propagates. -/
def copy_directory (P : CopyPrims) (fs : FS) (src dst : Path) : Except String FS :=
  (listdir fs src).foldlM (copy_dir_step P src dst) fs

/-- Join path components for a log message. -/
def joinPath (p : Path) : String := String.intercalate "/" p

/-- The tree-backup destination `<tree_backup_folder>/ScriptTree_BACKUP_<t>` (lines 142-144). -/
def tree_backup_path (t : Nat) : Path :=
  tree_backup_folder ++ ["ScriptTree_BACKUP_" ++ natRepr t]

/-- `backup_tree` (lines 133-148): copy the whole tree into the timestamped
destination; errors are not caught and propagate, success logs through the
module-level root logger (`logging.info`, line 148). -/
def backup_tree (P : CopyPrims) (fs : FS) (script_folder : Path) (t : Nat) :
    Except String (FS × List LogEvent) :=
  let ev : LogEvent :=
    { logger := LoggerId.root, level := LogLevel.info,
      msg := "ScriptTree Network Folder Saved: " ++ joinPath (tree_backup_path t) }
  match copy_directory P fs script_folder (tree_backup_path t) with
  | .ok fs2 => .ok (fs2, [ev])
  | .error e => .error e

/-! ### Invariants for the `copy_directory` correctness proof -/

/-- Structural part: the accumulator extends `fs` only by entries lying below
`dst ++ [i]` for an already processed child `i`. -/
def TreeInvW (fs : FS) (dst : Path) (P : List String) (acc : FS) : Prop :=
  ∃ W : FS, acc = W ++ fs ∧ ∀ kv ∈ W, ∃ i ∈ P, (dst ++ [i]) <+: kv.1

/-- Behavioural part: below every processed child the destination mirrors the
source. -/
def TreeInvB (fs : FS) (src dst : Path) (P : List String) (acc : FS) : Prop :=
  ∀ i ∈ P, ∀ rest : List String,
    lookupFS acc (dst ++ i :: rest) = lookupFS fs (src ++ i :: rest)

def TreeInv (fs : FS) (src dst : Path) (P : List String) (acc : FS) : Prop :=
  TreeInvW fs dst P acc ∧ TreeInvB fs src dst P acc

/-- Side conditions of a tree backup: the destination is fresh and neither
contains nor is contained in the source, and the source is a directory. -/
def TreeHyps (fs : FS) (src dst : Path) : Prop :=
  (∀ kv ∈ fs, ¬ dst <+: kv.1) ∧ ¬ dst <+: src ∧ ¬ src <+: dst ∧ lookupFS fs src = none

/-! ### Concrete fixtures used by witnesses -/

/-- A small sample tree: one file at the top, one in a subdirectory. -/
def sampleTree : FS :=
  [(["Scripts", "a.py"], "A"), (["Scripts", "tools", "b.mel"], "B")]

def sampleSrc : Path := ["Scripts"]

def samplePath : Path := ["Scripts", "a.py"]

/-- Copy primitives that always fail, standing for a permission or disk error. -/
def failPrims : CopyPrims :=
  ⟨fun _ _ _ => .error "disk full", fun _ _ _ => .error "disk full"⟩

/-- The log events of a tree-backup result (none when it failed). -/
def treeLogsOf (r : Except String (FS × List LogEvent)) : List LogEvent :=
  match r with
  | .ok (_, logs) => logs
  | .error _ => []

/-! ## Lemmas about the filter computation -/

theorem splitOnComma_ne_nil (l : List Char) : splitOnComma l ≠ [] := by
  induction l with
  | nil => simp [splitOnComma]
  | cons c rest ih =>
    unfold splitOnComma
    split
    · simp
    · cases h : splitOnComma rest <;> simp

theorem splitOnComma_all_space {l : List Char} (h : ∀ c ∈ l, c = ',' ∨ c = ' ') :
    ∀ piece ∈ splitOnComma l, ∀ c ∈ piece, c = ' ' := by
  induction l with
  | nil =>
    intro piece hp
    simp only [splitOnComma, List.mem_singleton] at hp
    subst hp; simp
  | cons a rest ih =>
    have ha := h a (List.mem_cons_self a rest)
    have hrest : ∀ c ∈ rest, c = ',' ∨ c = ' ' :=
      fun c hc => h c (List.mem_cons_of_mem a hc)
    intro piece hp
    unfold splitOnComma at hp
    by_cases hc : a = ','
    · rw [if_pos hc] at hp
      rcases List.mem_cons.1 hp with rfl | hp2
      · simp
      · exact ih hrest piece hp2
    · rw [if_neg hc] at hp
      have ha2 : a = ' ' := ha.resolve_left hc
      cases hsp : splitOnComma rest with
      | nil => exact absurd hsp (splitOnComma_ne_nil rest)
      | cons p ps =>
        rw [hsp] at hp
        rcases List.mem_cons.1 hp with rfl | hp2
        · intro c hc2
          rcases List.mem_cons.1 hc2 with rfl | hc3
          · exact ha2
          · exact ih hrest p (hsp ▸ List.mem_cons_self p ps) c hc3
        · exact ih hrest piece (hsp ▸ List.mem_cons_of_mem p hp2)

theorem stripNonAscii_of_all_ascii {l : List Char} (h : ∀ c ∈ l, c.toNat ≤ 0x7F) :
    stripNonAscii l = l :=
  List.filter_eq_self.2 (fun c hc => by simpa using h c hc)

theorem term_patterns_of_all_space {piece : List Char} (h : ∀ c ∈ piece, c = ' ') :
    term_patterns piece = ["**.py", "**.mel"] := by
  have hrem : removeSpaces piece = [] :=
    List.filter_eq_nil_iff.2 (fun c hc => by simp [h c hc])
  simp only [term_patterns, hrem]
  rfl

theorem flatMap_term_patterns_space {ps : List (List Char)} (hne : ps ≠ [])
    (h : ∀ piece ∈ ps, term_patterns piece = ["**.py", "**.mel"]) :
    (ps.flatMap term_patterns).toFinset = {"**.py", "**.mel"} := by
  induction ps with
  | nil => exact absurd rfl hne
  | cons p rest ih =>
    simp only [List.flatMap_cons, List.toFinset_append, h p (List.mem_cons_self p rest)]
    by_cases hrest : rest = []
    · subst hrest; simp
    · rw [ih hrest (fun q hq => h q (List.mem_cons_of_mem p hq))]
      simp

theorem stripNonAscii_idem (l : List Char) :
    stripNonAscii (stripNonAscii l) = stripNonAscii l := by
  simp [stripNonAscii, List.filter_filter]

/-! ## Claims about the filter computation -/

/-- Claim C1, counterexample: on the all-commas-and-spaces query `",, ,"` the
filter computation does not return an empty pattern set; the code keeps the
empty comma-split terms and emits a pattern pair for each. -/
theorem c1_counterexample : filter_results ",, ," ≠ ([], true) := by decide

/-- Claim C1 (amended): a nonempty query consisting only of commas and spaces
yields `shouldExpand = true` and the pattern set `{**.py, **.mel}` (one pattern
pair per comma-split term, each term normalising to the empty string), not an
empty pattern set. -/
theorem c1_amended (s : String) (hne : s.toList ≠ [])
    (hcs : ∀ c ∈ s.toList, c = ',' ∨ c = ' ') :
    (filter_results s).1.toFinset = {"**.py", "**.mel"} ∧
    (filter_results s).2 = true := by
  have hascii : ∀ c ∈ s.toList, c.toNat ≤ 0x7F := by
    intro c hc
    rcases hcs c hc with rfl | rfl <;> decide
  have hstrip : stripNonAscii s.toList = s.toList := stripNonAscii_of_all_ascii hascii
  have hpieces : ∀ piece ∈ splitOnComma s.toList, term_patterns piece = ["**.py", "**.mel"] :=
    fun piece hp => term_patterns_of_all_space (splitOnComma_all_space hcs piece hp)
  unfold filter_results
  rw [hstrip, if_neg hne]
  exact ⟨flatMap_term_patterns_space (splitOnComma_ne_nil _) hpieces, rfl⟩

/-- Claim C1 witness: the amended statement evaluated at `",, ,"`. -/
theorem c1_amended_witness :
    (filter_results ",, ,").1.toFinset = {"**.py", "**.mel"} ∧
    (filter_results ",, ,").2 = true :=
  c1_amended ",, ," (by decide) (by decide)

/-- Claim C2, counterexample: the code removes only space characters from each
term, not all whitespace; a term containing a tab keeps it, so the query
`"a\tb"` does not produce the whitespace-stripped patterns. -/
theorem c2_counterexample :
    filter_results "a\tb" ≠ (["*ab*.py", "*ab*.mel"], true) := by decide

/-- Claim C2 (amended): for every query whose normalization is non-empty, the
filter computation splits the query on commas, removes space characters (not
all whitespace) from each term, and emits exactly the patterns `*t*.py` and
`*t*.mel` for each term `t` (empty terms included), with `shouldExpand = true`;
in particular `"foo, bar"` yields exactly
`{*foo*.py, *foo*.mel, *bar*.py, *bar*.mel}`. -/
theorem c2_amended (s : String) (h : stripNonAscii s.toList ≠ []) :
    (filter_results s).2 = true ∧
    (filter_results s).1.toFinset =
      ((splitOnComma (stripNonAscii s.toList)).map
        (fun t => "*" ++ String.mk (removeSpaces t) ++ "*.py")).toFinset ∪
      ((splitOnComma (stripNonAscii s.toList)).map
        (fun t => "*" ++ String.mk (removeSpaces t) ++ "*.mel")).toFinset ∧
    filter_results "foo, bar" = (["*foo*.py", "*foo*.mel", "*bar*.py", "*bar*.mel"], true) := by
  refine ⟨?_, ?_, by decide⟩
  · unfold filter_results
    rw [if_neg h]
  · unfold filter_results
    rw [if_neg h]
    generalize splitOnComma (stripNonAscii s.toList) = ps
    ext x
    simp only [List.mem_toFinset, List.mem_flatMap, Finset.mem_union, List.mem_map,
      term_patterns, List.mem_cons, List.not_mem_nil, or_false]
    constructor
    · rintro ⟨t, ht, rfl | rfl⟩
      · exact Or.inl ⟨t, ht, rfl⟩
      · exact Or.inr ⟨t, ht, rfl⟩
    · rintro (⟨t, ht, rfl⟩ | ⟨t, ht, rfl⟩)
      · exact ⟨t, ht, Or.inl rfl⟩
      · exact ⟨t, ht, Or.inr rfl⟩

/-- Claim C2 witness: the amended statement evaluated at `"foo, bar"`. -/
theorem c2_amended_witness :
    (filter_results "foo, bar").2 = true ∧
    (filter_results "foo, bar").1.toFinset =
      ((splitOnComma (stripNonAscii "foo, bar".toList)).map
        (fun t => "*" ++ String.mk (removeSpaces t) ++ "*.py")).toFinset ∪
      ((splitOnComma (stripNonAscii "foo, bar".toList)).map
        (fun t => "*" ++ String.mk (removeSpaces t) ++ "*.mel")).toFinset ∧
    filter_results "foo, bar" = (["*foo*.py", "*foo*.mel", "*bar*.py", "*bar*.mel"], true) :=
  c2_amended "foo, bar" (by decide)

/-- Claim C7: the expansion state is a pure function of whether the normalized
query is empty; an empty normalized query yields the default pattern set
`{*.py, *.mel}` with `shouldExpand = false`, and every non-empty normalized
query yields `shouldExpand = true`. -/
theorem c7_expansion_state (s : String) :
    (stripNonAscii s.toList = [] → filter_results s = (["*.py", "*.mel"], false)) ∧
    (stripNonAscii s.toList ≠ [] → (filter_results s).2 = true) := by
  constructor
  · intro h; unfold filter_results; rw [if_pos h]; rfl
  · intro h; unfold filter_results; rw [if_neg h]

/-- Claim C7 witness: the empty query gives the default collapsed view and the
query `"x"` gives the expanded view. -/
theorem c7_expansion_state_witness :
    filter_results "" = (["*.py", "*.mel"], false) ∧ (filter_results "x").2 = true :=
  ⟨(c7_expansion_state "").1 (by decide), (c7_expansion_state "x").2 (by decide)⟩

/-- Claim C8: for a query containing non-ASCII characters, stripping them first
and then running the filter computation gives exactly the same result as
running it on the original query (the normalization is idempotent). -/
theorem c8_strip_idempotent (s : String) (_h : ∃ c ∈ s.toList, 0x7F < c.toNat) :
    filter_results (String.mk (stripNonAscii s.toList)) = filter_results s := by
  have h2 : (String.mk (stripNonAscii s.toList)).toList = stripNonAscii s.toList := rfl
  unfold filter_results
  rw [h2, stripNonAscii_idem]

/-- Claim C8 witness: evaluated at a query containing a non-ASCII character. -/
theorem c8_strip_idempotent_witness :
    filter_results (String.mk (stripNonAscii "héllo".toList)) = filter_results "héllo" :=
  c8_strip_idempotent "héllo" (by decide)

/-! ## Claims about the double-click preference -/

/-- Claim C6: the double-click dispatch is decided by the persisted preference:
a stored run preference dispatches to the run action (never open), a stored
edit preference to the open action; selecting a choice from the menu stores it
and immediately rewires the dispatch accordingly; and an unset key defaults to
the edit/open action. -/
theorem c6_double_click_dispatch (st : Settings) :
    (st k_double_click_action = some run_script_on_click →
      action_setup_double_click_connections st = .runScript) ∧
    (st k_double_click_action = some edit_script_on_click →
      action_setup_double_click_connections st = .openScript) ∧
    (st k_double_click_action = none →
      action_setup_double_click_connections st = .openScript) ∧
    (set_settings_value st k_double_click_action run_script_on_click).2 = .runScript ∧
    (set_settings_value st k_double_click_action edit_script_on_click).2 = .openScript := by
  refine ⟨fun h => ?_, fun h => ?_, fun h => ?_, ?_, ?_⟩
  · simp [action_setup_double_click_connections, settings_value, h,
      run_script_on_click, edit_script_on_click]
  · simp [action_setup_double_click_connections, settings_value, h]
  · simp [action_setup_double_click_connections, settings_value, h]
  · simp [action_setup_double_click_connections, settings_value, set_settings_value,
      setValue, run_script_on_click, edit_script_on_click]
  · simp [action_setup_double_click_connections, settings_value, set_settings_value,
      setValue]

/-- Claim C6 witness: the dispatch contract evaluated on a store with the key
unset, exercising the default and both menu selections. -/
theorem c6_double_click_dispatch_witness :
    action_setup_double_click_connections (fun _ => none) = .openScript ∧
    (set_settings_value (fun _ => none) k_double_click_action run_script_on_click).2
      = .runScript ∧
    (set_settings_value (fun _ => none) k_double_click_action edit_script_on_click).2
      = .openScript :=
  ⟨(c6_double_click_dispatch (fun _ => none)).2.2.1 rfl,
   (c6_double_click_dispatch (fun _ => none)).2.2.2.1,
   (c6_double_click_dispatch (fun _ => none)).2.2.2.2⟩

/-- Claim C10: with the preference key never set, the radio group checks
'Run Script on Double-Click' (the menu's `default` argument) while the
double-click connection itself defaults to the open/edit action, so the
displayed default and the effective dispatch disagree. -/
theorem c10_menu_default_mismatch (st : Settings) (h : st k_double_click_action = none) :
    radio_checked_choices st k_double_click_action double_click_menu_choices
      double_click_menu_default = [run_script_on_click] ∧
    action_setup_double_click_connections st = .openScript := by
  constructor
  · simp [radio_checked_choices, radio_item_to_check, double_click_menu_choices,
      double_click_menu_default, h, run_script_on_click, edit_script_on_click]
  · simp [action_setup_double_click_connections, settings_value, h]

/-- Claim C10 witness: the mismatch on the empty settings store. -/
theorem c10_menu_default_mismatch_witness :
    radio_checked_choices (fun _ => none) k_double_click_action double_click_menu_choices
      double_click_menu_default = [run_script_on_click] ∧
    action_setup_double_click_connections (fun _ => none) = .openScript :=
  c10_menu_default_mismatch (fun _ => none) rfl

/-! ## Claims about the backup policy -/

/-- Claim C3: backing up a non-existent file is a no-op that creates nothing
and raises no error; backing up an existing file creates exactly one new file,
placed in `<script_backup_folder>/<stem>/` and named
`<stem>_BACKUP_<timestamp><ext>`, leaving every other file — in particular the
original — unchanged. -/
theorem c3_backup_script (fs : FS) (path : Path) (t : Nat) :
    (lookupFS fs path = none → backup_script copy2R fs path t = (fs, [])) ∧
    (∀ c, lookupFS fs path = some c →
      lookupFS fs (backup_file_path path t) = none →
      backup_script copy2R fs path t = ((backup_file_path path t, c) :: fs, []) ∧
      lookupFS (backup_script copy2R fs path t).1 (backup_file_path path t) = some c ∧
      lookupFS (backup_script copy2R fs path t).1 path = some c ∧
      (∀ p, p ≠ backup_file_path path t →
        lookupFS (backup_script copy2R fs path t).1 p = lookupFS fs p) ∧
      backup_file_path path t =
        script_backup_folder ++ [(splitext (basename path)).1,
          (splitext (basename path)).1 ++ "_BACKUP_" ++ natRepr t ++
            (splitext (basename path)).2]) := by
  constructor
  · intro h
    unfold backup_script
    rw [h]
  · intro c hc hb
    have hres : backup_script copy2R fs path t = ((backup_file_path path t, c) :: fs, []) := by
      unfold backup_script copy2R
      rw [hc]
    have hne : path ≠ backup_file_path path t := by
      intro he
      rw [he, hb] at hc
      exact Option.noConfusion hc
    refine ⟨hres, ?_, ?_, ?_, rfl⟩
    · rw [hres]
      simp [lookupFS]
    · rw [hres]
      simp only [lookupFS]
      rw [if_neg (fun hh => hne hh.symm)]
      exact hc
    · intro p hp
      rw [hres]
      simp only [lookupFS]
      rw [if_neg (fun hh => hp hh.symm)]

/-- Claim C3 witness: the no-op branch on an empty filesystem and the
backup-creation branch on the sample tree, at timestamp 5. -/
theorem c3_backup_script_witness :
    backup_script copy2R [] samplePath 5 = ([], []) ∧
    backup_script copy2R sampleTree samplePath 5
      = ((backup_file_path samplePath 5, "A") :: sampleTree, []) ∧
    lookupFS (backup_script copy2R sampleTree samplePath 5).1
      (backup_file_path samplePath 5) = some "A" ∧
    lookupFS (backup_script copy2R sampleTree samplePath 5).1 samplePath = some "A" ∧
    (∀ p, p ≠ backup_file_path samplePath 5 →
      lookupFS (backup_script copy2R sampleTree samplePath 5).1 p = lookupFS sampleTree p) ∧
    backup_file_path samplePath 5 =
      script_backup_folder ++ [(splitext (basename samplePath)).1,
        (splitext (basename samplePath)).1 ++ "_BACKUP_" ++ natRepr 5 ++
          (splitext (basename samplePath)).2] :=
  ⟨(c3_backup_script [] samplePath 5).1 rfl,
   (c3_backup_script sampleTree samplePath 5).2 "A" (by decide) (by decide)⟩

/-- Claim C4: the error-handling asymmetry between the two backup contracts —
a failure of the copy primitive inside the single-file backup is caught,
logged through the root logger, and swallowed (the call returns normally with
the filesystem unchanged), whereas a failure inside the whole-tree backup is
not caught and propagates to the caller. -/
theorem c4_error_asymmetry (cp : CopyPrims) (fs : FS) (path src : Path)
    (t : Nat) (e : String) :
    (∀ c, lookupFS fs path = some c →
      cp.copy2 fs path (backup_file_path path t) = .error e →
      backup_script cp.copy2 fs path t =
        (fs, [{ logger := LoggerId.root, level := LogLevel.error, msg := e }])) ∧
    (copy_directory cp fs src (tree_backup_path t) = .error e →
      backup_tree cp fs src t = .error e) := by
  constructor
  · intro c hc hfail
    unfold backup_script
    rw [hc, hfail]
  · intro hfail
    unfold backup_tree
    rw [hfail]

/-- Claim C4 witness: with always-failing copy primitives, the single-file
backup swallows the error and logs it, while the tree backup propagates it. -/
theorem c4_error_asymmetry_witness :
    backup_script failPrims.copy2 sampleTree samplePath 3
      = (sampleTree, [{ logger := LoggerId.root, level := LogLevel.error, msg := "disk full" }]) ∧
    backup_tree failPrims sampleTree sampleSrc 3 = .error "disk full" :=
  ⟨(c4_error_asymmetry failPrims sampleTree samplePath sampleSrc 3 "disk full").1
      "A" rfl rfl,
   (c4_error_asymmetry failPrims sampleTree samplePath sampleSrc 3 "disk full").2 rfl⟩

/-! ## Claims about logging -/

/-- Claim C9, counterexample: not every log message goes through the named
'Script-Tree' logger — a failing single-file backup logs through the
module-level root logger. -/
theorem c9_counterexample :
    ¬ ∀ ev ∈ (backup_script failPrims.copy2 sampleTree samplePath 7).2,
        ev.logger = LoggerId.scriptTree := by decide

/-- Claim C9 (amended): the named 'Script-Tree' logger has propagation to the
host disabled, but the backup utilities do not use it: every log message
emitted by the single-file backup and by the whole-tree backup goes through
the module-level root logger. -/
theorem c9_amended (cp2 : FS → Path → Path → Except String FS) (P : CopyPrims)
    (fs : FS) (p src : Path) (t : Nat) :
    set_logger.name = "Script-Tree" ∧ set_logger.propagate = false ∧
    (∀ ev ∈ (backup_script cp2 fs p t).2, ev.logger = LoggerId.root) ∧
    (∀ fs2 logs, backup_tree P fs src t = .ok (fs2, logs) →
      ∀ ev ∈ logs, ev.logger = LoggerId.root) := by
  refine ⟨rfl, rfl, ?_, ?_⟩
  · intro ev hev
    unfold backup_script at hev
    cases hl : lookupFS fs p with
    | none =>
      rw [hl] at hev
      simp at hev
    | some c =>
      rw [hl] at hev
      cases hcp : cp2 fs p (backup_file_path p t) with
      | ok fs2 =>
        rw [hcp] at hev
        simp at hev
      | error e =>
        rw [hcp] at hev
        simp only [List.mem_singleton] at hev
        rw [hev]
  · intro fs2 logs hok ev hev
    unfold backup_tree at hok
    cases hcd : copy_directory P fs src (tree_backup_path t) with
    | ok f3 =>
      rw [hcd] at hok
      simp only [Except.ok.injEq, Prod.mk.injEq] at hok
      rw [← hok.2] at hev
      simp only [List.mem_singleton] at hev
      rw [hev]
    | error e =>
      rw [hcd] at hok
      exact absurd hok (by simp)

/-- Claim C9 witness: the root-logger fact evaluated on concrete failing and
succeeding backups. -/
theorem c9_amended_witness :
    (∀ ev ∈ (backup_script failPrims.copy2 sampleTree samplePath 9).2,
      ev.logger = LoggerId.root) ∧
    (∀ ev ∈ treeLogsOf (backup_tree realPrims sampleTree sampleSrc 9),
      ev.logger = LoggerId.root) := by
  have h := c9_amended failPrims.copy2 realPrims sampleTree samplePath sampleSrc 9
  refine ⟨h.2.2.1, ?_⟩
  cases hres : backup_tree realPrims sampleTree sampleSrc 9 with
  | ok pr =>
    intro ev hev
    exact h.2.2.2 pr.1 pr.2 (by rw [hres]) ev (by simpa [treeLogsOf, hres] using hev)
  | error e =>
    intro ev hev
    simp [treeLogsOf, hres] at hev

/-! ## Lemmas about lookupFS -/

theorem pre_append (l t : List String) : l <+: l ++ t := List.prefix_append l t

theorem pre_total {l1 l2 l3 : List String} (h1 : l1 <+: l3) (h2 : l2 <+: l3) :
    l1 <+: l2 ∨ l2 <+: l1 := List.prefix_or_prefix_of_prefix h1 h2

theorem pre_cancel (l : Path) {l1 l2 : Path} (h : l ++ l1 <+: l ++ l2) : l1 <+: l2 :=
  (List.prefix_append_right_inj l).1 h

theorem lookupFS_append_some {A : FS} (B : FS) {p : Path} {v : String}
    (h : lookupFS A p = some v) : lookupFS (A ++ B) p = some v := by
  induction A with
  | nil => simp [lookupFS] at h
  | cons kv rest ih =>
    cases kv with
    | mk k w =>
      simp only [List.cons_append, lookupFS] at h ⊢
      by_cases hk : k = p
      · rwa [if_pos hk] at h ⊢
      · rw [if_neg hk] at h ⊢
        exact ih h

theorem lookupFS_append_none {A : FS} (B : FS) {p : Path}
    (h : lookupFS A p = none) : lookupFS (A ++ B) p = lookupFS B p := by
  induction A with
  | nil => rfl
  | cons kv rest ih =>
    cases kv with
    | mk k w =>
      simp only [List.cons_append, lookupFS] at h ⊢
      by_cases hk : k = p
      · rw [if_pos hk] at h
        exact Option.noConfusion h
      · rw [if_neg hk] at h ⊢
        exact ih h

theorem lookupFS_eq_none {A : FS} {p : Path} (h : ∀ kv ∈ A, kv.1 ≠ p) :
    lookupFS A p = none := by
  induction A with
  | nil => rfl
  | cons kv rest ih =>
    cases kv with
    | mk k w =>
      simp only [lookupFS]
      rw [if_neg (h (k, w) (List.mem_cons_self _ _))]
      exact ih (fun kv2 hkv => h kv2 (List.mem_cons_of_mem _ hkv))

theorem lookupFS_mem {A : FS} {p : Path} {v : String} (h : lookupFS A p = some v) :
    (p, v) ∈ A := by
  induction A with
  | nil => simp [lookupFS] at h
  | cons kv rest ih =>
    cases kv with
    | mk k w =>
      simp only [lookupFS] at h
      by_cases hk : k = p
      · rw [if_pos hk] at h
        cases h
        exact hk ▸ List.mem_cons_self _ _
      · rw [if_neg hk] at h
        exact List.mem_cons_of_mem _ (ih h)

theorem lookupFS_cons (k : Path) (v : String) (A : FS) (p : Path) :
    lookupFS ((k, v) :: A) p = if k = p then some v else lookupFS A p := rfl

theorem lookupFS_isSome_of_mem {A : FS} {p : Path} {v : String} (h : (p, v) ∈ A) :
    ∃ w, lookupFS A p = some w := by
  induction A with
  | nil => simp at h
  | cons kv rest ih =>
    cases kv with
    | mk k w =>
      simp only [lookupFS]
      by_cases hk : k = p
      · exact ⟨w, by rw [if_pos hk]⟩
      · rw [if_neg hk]
        rcases List.mem_cons.1 h with he | hm
        · exact absurd (congrArg Prod.fst he).symm hk
        · exact ih hm

/-! ## Lemmas about the subtree copy -/

theorem lookupFS_subtreeEntries (s d tail : Path) (acc : FS) :
    lookupFS (subtreeEntries s d acc) (d ++ tail) = lookupFS acc (s ++ tail) := by
  induction acc with
  | nil => rfl
  | cons kv rest ih =>
    cases kv with
    | mk k v =>
      unfold subtreeEntries
      by_cases hk : s <+: k
      · rw [if_pos hk]
        simp only [lookupFS]
        by_cases he : k = s ++ tail
        · have hdrop : k.drop s.length = tail := by
            rw [he]
            exact List.drop_left s tail
          rw [if_pos (by rw [hdrop]), if_pos he]
        · have hne2 : d ++ k.drop s.length ≠ d ++ tail := by
            intro hcon
            apply he
            obtain ⟨u, hu⟩ := hk
            have hdu : k.drop s.length = tail := List.append_cancel_left hcon
            rw [← hu, ← hdu, ← hu]
            rw [List.drop_left s u]
          rw [if_neg hne2, if_neg he]
          exact ih
      · rw [if_neg hk]
        have hne2 : k ≠ s ++ tail := fun he => hk (he ▸ pre_append s tail)
        simp only [lookupFS]
        rw [if_neg hne2]
        exact ih

theorem subtreeEntries_key_under {s d : Path} {acc : FS} {kv : Path × String}
    (h : kv ∈ subtreeEntries s d acc) : d <+: kv.1 := by
  induction acc with
  | nil => simp [subtreeEntries] at h
  | cons kv2 rest ih =>
    cases kv2 with
    | mk k v =>
      unfold subtreeEntries at h
      by_cases hk : s <+: k
      · rw [if_pos hk] at h
        rcases List.mem_cons.1 h with he | hm
        · rw [he]
          exact pre_append d _
        · exact ih hm
      · rw [if_neg hk] at h
        exact ih h

theorem lookupFS_subtreeEntries_none {s d p : Path} (acc : FS) (h : ¬ d <+: p) :
    lookupFS (subtreeEntries s d acc) p = none :=
  lookupFS_eq_none (fun _kv hkv he => h (he ▸ subtreeEntries_key_under hkv))

/-! ## The decimal rendering is injective -/

theorem natReprAux_fuel (fuel1 : Nat) : ∀ fuel2 n : Nat, n < fuel1 → n < fuel2 →
    natReprAux fuel1 n = natReprAux fuel2 n := by
  induction fuel1 with
  | zero => omega
  | succ f ih =>
    intro fuel2 n h1 h2
    cases fuel2 with
    | zero => omega
    | succ f2 =>
      simp only [natReprAux]
      by_cases hn : n < 10
      · rw [if_pos hn, if_pos hn]
      · rw [if_neg hn, if_neg hn]
        have hd : n / 10 < n := Nat.div_lt_self (by omega) (by omega)
        rw [ih f2 (n / 10) (by omega) (by omega)]

theorem natReprAux_succ (fuel n : Nat) :
    natReprAux (fuel + 1) n =
      if n < 10 then [digitChar n]
      else natReprAux fuel (n / 10) ++ [digitChar (n % 10)] := rfl

theorem natReprCore_eq (n : Nat) :
    natReprCore n =
      if n < 10 then [digitChar n]
      else natReprCore (n / 10) ++ [digitChar (n % 10)] := by
  show natReprAux (n + 1) n = _
  rw [natReprAux_succ]
  by_cases hn : n < 10
  · rw [if_pos hn, if_pos hn]
  · rw [if_neg hn, if_neg hn]
    have hd : n / 10 < n := Nat.div_lt_self (by omega) (by omega)
    show _ = natReprAux (n / 10 + 1) (n / 10) ++ _
    rw [natReprAux_fuel n (n / 10 + 1) (n / 10) (by omega) (by omega)]

theorem natReprCore_ne_nil (n : Nat) : natReprCore n ≠ [] := by
  rw [natReprCore_eq]
  by_cases hn : n < 10
  · rw [if_pos hn]
    simp
  · rw [if_neg hn]
    simp

theorem digitChar_inj {a b : Nat} (ha : a < 10) (hb : b < 10)
    (h : digitChar a = digitChar b) : a = b := by
  interval_cases a <;> interval_cases b <;> first | rfl | exact absurd h (by decide)

theorem natReprCore_inj (m : Nat) : ∀ n, natReprCore m = natReprCore n → m = n := by
  induction m using Nat.strong_induction_on with
  | _ m ih =>
    intro n h
    rw [natReprCore_eq m, natReprCore_eq n] at h
    by_cases hm : m < 10 <;> by_cases hn : n < 10
    · rw [if_pos hm, if_pos hn] at h
      simp only [List.cons.injEq, and_true] at h
      exact digitChar_inj hm hn h
    · rw [if_pos hm, if_neg hn] at h
      have hlen := congrArg List.length h
      simp only [List.length_singleton, List.length_append] at hlen
      have : natReprCore (n / 10) = [] := List.length_eq_zero.1 (by omega)
      exact absurd this (natReprCore_ne_nil _)
    · rw [if_neg hm, if_pos hn] at h
      have hlen := congrArg List.length h
      simp only [List.length_singleton, List.length_append] at hlen
      have : natReprCore (m / 10) = [] := List.length_eq_zero.1 (by omega)
      exact absurd this (natReprCore_ne_nil _)
    · rw [if_neg hm, if_neg hn] at h
      obtain ⟨h1, h2⟩ := List.append_inj' h rfl
      have hq : m / 10 = n / 10 :=
        ih (m / 10) (Nat.div_lt_self (by omega) (by omega)) (n / 10) h1
      have hr : m % 10 = n % 10 :=
        digitChar_inj (Nat.mod_lt _ (by omega)) (Nat.mod_lt _ (by omega))
          (by simpa using h2)
      omega

theorem natRepr_inj {m n : Nat} (h : natRepr m = natRepr n) : m = n := by
  apply natReprCore_inj m n
  unfold natRepr at h
  injection h

theorem tree_backup_path_distinct {t1 t2 : Nat} (h : t1 ≠ t2) :
    tree_backup_path t1 ≠ tree_backup_path t2 ∧
    ¬ tree_backup_path t1 <+: tree_backup_path t2 ∧
    ¬ tree_backup_path t2 <+: tree_backup_path t1 := by
  have hname : ("ScriptTree_BACKUP_" ++ natRepr t1) ≠ ("ScriptTree_BACKUP_" ++ natRepr t2) := by
    intro he
    apply h
    apply natRepr_inj
    apply String.ext
    have hd := congrArg String.data he
    simp only [String.data_append] at hd
    exact List.append_cancel_left hd
  have hne : tree_backup_path t1 ≠ tree_backup_path t2 := by
    intro he
    unfold tree_backup_path at he
    have h2 := List.append_cancel_left he
    simp only [List.cons.injEq, and_true] at h2
    exact hname h2
  have hlen : (tree_backup_path t1).length = (tree_backup_path t2).length := by
    unfold tree_backup_path
    simp
  exact ⟨hne, fun hp => hne (hp.eq_of_length hlen),
    fun hp => hne (hp.eq_of_length hlen.symm).symm⟩

/-! ## Correctness of copy_directory -/

theorem dst_not_prefix_sub {src dst : Path} (hds : ¬ dst <+: src) (hsd : ¬ src <+: dst)
    (item : String) (rest : Path) : ¬ dst <+: src ++ item :: rest := by
  intro hp
  rcases pre_total hp (pre_append src (item :: rest)) with h1 | h1
  · exact hds h1
  · exact hsd h1

theorem childName_eq_some {p k : Path} {i : String} :
    childName p k = some i ↔ ∃ tail, k = p ++ i :: tail := by
  unfold childName
  constructor
  · intro h
    by_cases hp : p <+: k
    · rw [if_pos hp] at h
      obtain ⟨u, hu⟩ := hp
      rw [← hu, List.drop_left] at h
      cases u with
      | nil => exact Option.noConfusion h
      | cons a u2 =>
        simp only [List.head?_cons, Option.some.injEq] at h
        exact ⟨u2, by rw [← hu, h]⟩
    · rw [if_neg hp] at h
      exact Option.noConfusion h
  · rintro ⟨tail, rfl⟩
    rw [if_pos ⟨i :: tail, rfl⟩, List.drop_left]
    rfl

theorem mem_listdir {fs : FS} {p : Path} {i : String} :
    i ∈ listdir fs p ↔ ∃ kv ∈ fs, ∃ tail, kv.1 = p ++ i :: tail := by
  unfold listdir
  rw [List.mem_dedup]
  simp only [List.mem_filterMap, List.mem_map]
  constructor
  · rintro ⟨k, ⟨kv, hkv, rfl⟩, hc⟩
    obtain ⟨tail, htail⟩ := childName_eq_some.1 hc
    exact ⟨kv, hkv, tail, htail⟩
  · rintro ⟨kv, hkv, tail, htail⟩
    exact ⟨kv.1, ⟨kv, hkv, rfl⟩, childName_eq_some.2 ⟨tail, htail⟩⟩

theorem TreeInvW_lookup_outside {fs : FS} {dst : Path} {P : List String} {acc : FS}
    (hW : TreeInvW fs dst P acc) {p : Path} (hp : ¬ dst <+: p) :
    lookupFS acc p = lookupFS fs p := by
  obtain ⟨W, rfl, hWk⟩ := hW
  apply lookupFS_append_none
  apply lookupFS_eq_none
  intro kv hkv he
  obtain ⟨j, _, hpre⟩ := hWk kv hkv
  apply hp
  rw [← he]
  exact (pre_append dst [j]).trans hpre

theorem TreeInvW_lookup_unprocessed {fs : FS} {dst : Path} {P : List String} {acc : FS}
    (hW : TreeInvW fs dst P acc) (hfresh : ∀ kv ∈ fs, ¬ dst <+: kv.1)
    {i : String} (hi : i ∉ P) (rest : Path) :
    lookupFS acc (dst ++ i :: rest) = none := by
  obtain ⟨W, rfl, hWk⟩ := hW
  have h1 : lookupFS W (dst ++ i :: rest) = none := by
    apply lookupFS_eq_none
    intro kv hkv he
    obtain ⟨j, hj, hpre⟩ := hWk kv hkv
    rw [he] at hpre
    obtain ⟨u, hu⟩ := pre_cancel dst hpre
    simp only [List.cons_append, List.nil_append, List.cons.injEq] at hu
    exact hi (hu.1 ▸ hj)
  rw [lookupFS_append_none fs h1]
  apply lookupFS_eq_none
  intro kv hkv he
  apply hfresh kv hkv
  rw [he]
  exact pre_append _ _

theorem copy_dir_step_inv {fs : FS} {src dst : Path} {P : List String} {acc : FS}
    (hfresh : ∀ kv ∈ fs, ¬ dst <+: kv.1) (hds : ¬ dst <+: src) (hsd : ¬ src <+: dst)
    {item : String} (hitem : item ∈ listdir fs src) (hnotP : item ∉ P)
    (hinv : TreeInv fs src dst P acc) :
    ∃ acc2, copy_dir_step realPrims src dst acc item = .ok acc2 ∧
      TreeInv fs src dst (item :: P) acc2 := by
  obtain ⟨hW, hB⟩ := hinv
  have hpath : ∀ rest : Path, (src ++ [item]) ++ rest = src ++ item :: rest :=
    fun rest => List.append_assoc src [item] rest
  unfold copy_dir_step
  by_cases hdir : isdir acc (src ++ [item])
  · rw [if_pos hdir]
    refine ⟨_, rfl, ?_, ?_⟩
    · obtain ⟨W, haccW, hWk⟩ := hW
      refine ⟨subtreeEntries (src ++ [item]) (dst ++ [item]) acc ++ W,
        by rw [haccW]; exact (List.append_assoc _ _ _).symm, ?_⟩
      intro kv hkv
      rcases List.mem_append.1 hkv with hm | hm
      · exact ⟨item, List.mem_cons_self _ _, subtreeEntries_key_under hm⟩
      · obtain ⟨j, hj, hpre⟩ := hWk kv hm
        exact ⟨j, List.mem_cons_of_mem _ hj, hpre⟩
    · intro i hi rest
      rcases List.mem_cons.1 hi with rfl | hiP
      · have hqd : dst ++ i :: rest = (dst ++ [i]) ++ rest := (List.append_assoc dst [i] rest).symm
        have hA : lookupFS (subtreeEntries (src ++ [i]) (dst ++ [i]) acc) ((dst ++ [i]) ++ rest)
            = lookupFS acc ((src ++ [i]) ++ rest) := lookupFS_subtreeEntries _ _ _ _
        have hacc_s : lookupFS acc ((src ++ [i]) ++ rest) = lookupFS fs (src ++ i :: rest) := by
          rw [hpath rest]
          exact TreeInvW_lookup_outside hW (dst_not_prefix_sub hds hsd i rest)
        rw [hqd]
        cases hv : lookupFS fs (src ++ i :: rest) with
        | some v =>
          rw [lookupFS_append_some acc (hA.trans (hacc_s.trans hv))]
        | none =>
          rw [lookupFS_append_none acc (hA.trans (hacc_s.trans hv)), ← hqd]
          rw [TreeInvW_lookup_unprocessed hW hfresh hnotP rest]
      · have hnd : ¬ (dst ++ [item]) <+: dst ++ i :: rest := by
          intro hp
          obtain ⟨u, hu⟩ := pre_cancel dst hp
          simp only [List.cons_append, List.nil_append, List.cons.injEq] at hu
          exact hnotP (hu.1 ▸ hiP)
        rw [lookupFS_append_none acc (lookupFS_subtreeEntries_none acc hnd)]
        exact hB i hiP rest
  · rw [if_neg hdir]
    obtain ⟨kv0, hkv0, tail0, htail0⟩ := mem_listdir.1 hitem
    have hsub : ∀ kv ∈ fs, ¬ ((src ++ [item]) <+: kv.1 ∧ (src ++ [item]).length < kv.1.length) := by
      rintro kv hkv ⟨hpre, hlen⟩
      apply hdir
      obtain ⟨W, haccW, _⟩ := hW
      exact ⟨kv, by rw [haccW]; exact List.mem_append.2 (Or.inr hkv), hpre, hlen⟩
    have htail0nil : tail0 = [] := by
      by_contra hne
      apply hsub kv0 hkv0
      rw [htail0]
      constructor
      · rw [← hpath tail0]
        exact pre_append _ _
      · cases tail0 with
        | nil => exact absurd rfl hne
        | cons a b => simp
    have hkey : kv0.1 = src ++ [item] := by rw [htail0, htail0nil]
    obtain ⟨v, hv⟩ := lookupFS_isSome_of_mem (show (src ++ [item], kv0.2) ∈ fs from hkey ▸ hkv0)
    have hacc_s : lookupFS acc (src ++ [item]) = some v := by
      rw [TreeInvW_lookup_outside hW (dst_not_prefix_sub hds hsd item [])]
      exact hv
    simp only [realPrims, copy2R]
    rw [hacc_s]
    refine ⟨(dst ++ [item], v) :: acc, rfl, ?_, ?_⟩
    · obtain ⟨W, haccW, hWk⟩ := hW
      refine ⟨(dst ++ [item], v) :: W, by rw [haccW]; rfl, ?_⟩
      intro kv hkv
      rcases List.mem_cons.1 hkv with rfl | hm
      · exact ⟨item, List.mem_cons_self _ _, List.prefix_refl _⟩
      · obtain ⟨j, hj, hpre⟩ := hWk kv hm
        exact ⟨j, List.mem_cons_of_mem _ hj, hpre⟩
    · intro i hi rest
      rcases List.mem_cons.1 hi with rfl | hiP
      · cases rest with
        | nil =>
          rw [lookupFS_cons, if_pos rfl]
          exact hv.symm
        | cons r rs =>
          have hne3 : dst ++ [i] ≠ dst ++ i :: r :: rs := by
            intro he
            have hlen := congrArg List.length he
            simp at hlen
          rw [lookupFS_cons, if_neg hne3]
          rw [TreeInvW_lookup_unprocessed hW hfresh hnotP (r :: rs)]
          symm
          apply lookupFS_eq_none
          intro kv hkv he
          apply hsub kv hkv
          constructor
          · rw [he, ← hpath (r :: rs)]
            exact pre_append _ _
          · rw [he]
            simp
      · have hne4 : dst ++ [item] ≠ dst ++ i :: rest := by
          intro he
          obtain hu := List.append_cancel_left he
          simp only [List.cons.injEq] at hu
          exact hnotP (hu.1 ▸ hiP)
        rw [lookupFS_cons, if_neg hne4]
        exact hB i hiP rest

theorem copy_dir_fold_inv {fs : FS} {src dst : Path}
    (hfresh : ∀ kv ∈ fs, ¬ dst <+: kv.1) (hds : ¬ dst <+: src) (hsd : ¬ src <+: dst) :
    ∀ (items : List String) (P : List String) (acc : FS),
      (∀ i ∈ items, i ∈ listdir fs src) → (∀ i ∈ items, i ∉ P) → items.Nodup →
      TreeInv fs src dst P acc →
      ∃ acc2, List.foldlM (copy_dir_step realPrims src dst) acc items = .ok acc2 ∧
        TreeInv fs src dst (items.reverse ++ P) acc2 := by
  intro items
  induction items with
  | nil =>
    intro P acc _ _ _ hinv
    exact ⟨acc, rfl, by simpa using hinv⟩
  | cons item rest ih =>
    intro P acc hmem hnot hnd hinv
    obtain ⟨acc1, hstep, hinv1⟩ := copy_dir_step_inv hfresh hds hsd
      (hmem item (List.mem_cons_self _ _)) (hnot item (List.mem_cons_self _ _)) hinv
    have hnd2 := List.nodup_cons.1 hnd
    obtain ⟨acc2, hfold, hinv2⟩ := ih (item :: P) acc1
      (fun i hi => hmem i (List.mem_cons_of_mem _ hi))
      (fun i hi hmem2 => by
        rcases List.mem_cons.1 hmem2 with rfl | hP
        · exact hnd2.1 hi
        · exact hnot i (List.mem_cons_of_mem _ hi) hP)
      hnd2.2 hinv1
    refine ⟨acc2, ?_, ?_⟩
    · rw [List.foldlM_cons, hstep]
      exact hfold
    · have hset : (item :: rest).reverse ++ P = rest.reverse ++ (item :: P) := by
        simp [List.reverse_cons, List.append_assoc]
      rw [hset]
      exact hinv2

theorem copy_directory_correct (fs : FS) (src dst : Path)
    (hfresh : ∀ kv ∈ fs, ¬ dst <+: kv.1) (hds : ¬ dst <+: src) (hsd : ¬ src <+: dst)
    (hsrc : lookupFS fs src = none) :
    ∃ fs2, copy_directory realPrims fs src dst = .ok fs2 ∧
      (∀ rel, lookupFS fs2 (dst ++ rel) = lookupFS fs (src ++ rel)) ∧
      (∀ p, ¬ dst <+: p → lookupFS fs2 p = lookupFS fs p) := by
  obtain ⟨fs2, hfold, hinv⟩ := copy_dir_fold_inv hfresh hds hsd (listdir fs src) [] fs
    (fun i hi => hi) (fun i _ => List.not_mem_nil i)
    (by unfold listdir; exact List.nodup_dedup _)
    ⟨⟨[], rfl, fun kv hkv => absurd hkv (List.not_mem_nil kv)⟩,
     fun i hi => absurd hi (List.not_mem_nil i)⟩
  refine ⟨fs2, hfold, ?_, fun p hp => TreeInvW_lookup_outside hinv.1 hp⟩
  intro rel
  cases rel with
  | nil =>
    rw [List.append_nil, List.append_nil, hsrc]
    obtain ⟨W, hfs2, hWk⟩ := hinv.1
    have hWnone : lookupFS W dst = none := by
      apply lookupFS_eq_none
      intro kv hkv he
      obtain ⟨j, _, hpre⟩ := hWk kv hkv
      rw [he] at hpre
      have hlen := hpre.length_le
      simp at hlen
    rw [hfs2, lookupFS_append_none fs hWnone]
    exact lookupFS_eq_none (fun kv hkv he => hfresh kv hkv (by rw [he]))
  | cons i rest =>
    by_cases hi : i ∈ listdir fs src
    · exact hinv.2 i (by simpa using hi) rest
    · rw [TreeInvW_lookup_unprocessed hinv.1 hfresh (by simpa using hi) rest]
      symm
      apply lookupFS_eq_none
      intro kv hkv he
      exact hi (mem_listdir.2 ⟨kv, hkv, rest, he⟩)

/-- Claim C5: a tree backup copies the whole tree into the fresh destination
directory `<tree_backup_folder>/ScriptTree_BACKUP_<t>/` whose file set,
relative to its root, exactly matches the source's file set; the source (and
everything else outside the destination) is left unmodified; and two calls
with distinct second-granularity timestamps use two distinct, non-overlapping
destination directories. -/
theorem c5_backup_tree (fs : FS) (src : Path) (t1 t2 : Nat)
    (hfresh : ∀ kv ∈ fs, ¬ tree_backup_path t1 <+: kv.1)
    (hds : ¬ tree_backup_path t1 <+: src) (hsd : ¬ src <+: tree_backup_path t1)
    (hsrc : lookupFS fs src = none) (ht : t1 ≠ t2) :
    (∃ fs2 logs, backup_tree realPrims fs src t1 = .ok (fs2, logs) ∧
      (∀ rel, lookupFS fs2 (tree_backup_path t1 ++ rel) = lookupFS fs (src ++ rel)) ∧
      (∀ rel, lookupFS fs2 (src ++ rel) = lookupFS fs (src ++ rel)) ∧
      (∀ p, ¬ tree_backup_path t1 <+: p → lookupFS fs2 p = lookupFS fs p)) ∧
    tree_backup_path t1 ≠ tree_backup_path t2 ∧
    ¬ tree_backup_path t1 <+: tree_backup_path t2 ∧
    ¬ tree_backup_path t2 <+: tree_backup_path t1 := by
  obtain ⟨fs2, hcd, hmirror, houtside⟩ :=
    copy_directory_correct fs src (tree_backup_path t1) hfresh hds hsd hsrc
  refine ⟨⟨fs2, [⟨LoggerId.root, LogLevel.info,
      "ScriptTree Network Folder Saved: " ++ joinPath (tree_backup_path t1)⟩],
      ?_, hmirror, ?_, houtside⟩, tree_backup_path_distinct ht⟩
  · unfold backup_tree
    rw [hcd]
  · intro rel
    apply houtside
    intro hp
    rcases pre_total hp (pre_append src rel) with h1 | h1
    · exact hds h1
    · exact hsd h1

/-- Claim C5 witness: the tree-backup contract evaluated on the sample tree
with timestamps 1 and 2. -/
theorem c5_backup_tree_witness :
    (∃ fs2 logs, backup_tree realPrims sampleTree sampleSrc 1 = .ok (fs2, logs) ∧
      (∀ rel, lookupFS fs2 (tree_backup_path 1 ++ rel) = lookupFS sampleTree (sampleSrc ++ rel)) ∧
      (∀ rel, lookupFS fs2 (sampleSrc ++ rel) = lookupFS sampleTree (sampleSrc ++ rel)) ∧
      (∀ p, ¬ tree_backup_path 1 <+: p → lookupFS fs2 p = lookupFS sampleTree p)) ∧
    tree_backup_path 1 ≠ tree_backup_path 2 ∧
    ¬ tree_backup_path 1 <+: tree_backup_path 2 ∧
    ¬ tree_backup_path 2 <+: tree_backup_path 1 :=
  c5_backup_tree sampleTree sampleSrc 1 2 (by decide) (by decide) (by decide)
    (by decide) (by decide)

end ScriptTree
